import Mathlib

/-!
Verification of the script-detection training code
(`workshops/script_detection/model.py`): a shallow embedding of the
padding/batching helpers, the `Trainer` loop bookkeeping (histories,
checkpoints, early stopping, epoch-loss normalisation) and `Runner.script`,
together with theorems settling the specification's claims about them.

Conventions of the embedding:
* a line image (a 2-D `width × height` float array) is a `List (List ℚ)`,
  one inner list per width position (a column of `height` pixels);
* numpy/python calls that raise (`IndexError` from `image_data[i]`,
  `ValueError` from `max()` / `np.concatenate` on empty input,
  `ZeroDivisionError`, `TypeError` from bad argument binding,
  `AssertionError`) are modelled with `Option`/`Except`;
* the TensorFlow session is external to the repository, so per-batch losses
  and the forward pass are abstracted as function parameters.
-/

namespace ScriptDetection

/-- A line image: `width` columns, each a column of `height` rational pixels.
Mirrors a numpy array of shape `(width, height)`. -/
abbrev Image := List (List ℚ)

/-- A dataset sample, `(line_image, label)` as produced by the dataset
collaborator's indexed access. -/
abbrev Sample := Image × Int

/-- The height recorded in a line's numpy shape `(1, w, h)`; for rectangular
data every column has this length. -/
def imgHeight (img : Image) : Nat :=
  (img.headD []).length

/-- `_prepare_data(line, label)`: expands the line to a `1 × W × H` batch
(implicit here, a single image stays a single image), records
`line_width = line.shape[1] = W`, and wraps the label.  Returns
`(line, line_width, label)`. -/
def prepareData (line : Image) (label : Int) : Image × Nat × Int :=
  (line, line.length, label)

/-- `_pad_line(line, width, padding_value)`: `np.pad` on the trailing width
axis, appending `width - w` constant columns of height `h = line.shape[2]`.
Height and batch axes receive no padding. -/
def padLine (line : Image) (width : Nat) (paddingValue : ℚ) : Image :=
  line ++ List.replicate (width - line.length) (List.replicate (imgHeight line) paddingValue)

/-- Python's `max` over a list: `none` on the empty list (`ValueError`). -/
def pymax : List Nat → Option Nat
  | [] => none
  | x :: xs => some (xs.foldl max x)

/-- The sample-fetch loop `for i in range(from_elem, to_elem): image_data[i]`,
parameterised by the start index and the number of iterations; `none` models
an `IndexError` on an out-of-range access. -/
def fetchCount (data : List Sample) : Nat → Nat → Option (List Sample)
  | _, 0 => some []
  | a, k + 1 =>
    match data.get? a, fetchCount data (a + 1) k with
    | some s, some rest => some (s :: rest)
    | _, _ => none

/-- `_get_padded_batch(image_data, from_elem, to_elem, padding_value)`:
fetch samples `from_elem ≤ i < to_elem`, run each through `_prepare_data`,
take the maximum width, pad every line to it and stack.  `none` models the
exceptions raised on an out-of-range index or an empty range (`max` /
`np.concatenate` on an empty sequence). -/
def getPaddedBatch (data : List Sample) (fromElem toElem : Nat) (paddingValue : ℚ) :
    Option (List Image × List Nat × List Int) :=
  match fetchCount data fromElem (toElem - fromElem) with
  | none => none
  | some samples =>
    let widths := samples.map fun s => (prepareData s.1 s.2).2.1
    match pymax widths with
    | none => none
    | some maxWidth =>
      some (samples.map (fun s => padLine s.1 maxWidth paddingValue), widths,
            samples.map fun s => s.2)

/-- The minimum of a validation history, as `np.argmin` computes it over the
values (`np.min` semantics on a nonempty float list; `0` is a placeholder for
the empty list, on which numpy raises). -/
def listMin : List ℚ → ℚ
  | [] => 0
  | [x] => x
  | x :: y :: xs => min x (listMin (y :: xs))

/-- `np.argmin`: index of the first occurrence of the minimum value (`0` is a
placeholder for the empty list, on which numpy raises). -/
def argmin : List ℚ → Nat
  | [] => 0
  | [_] => 0
  | x :: y :: xs => if x ≤ listMin (y :: xs) then 0 else argmin (y :: xs) + 1

/-- `Trainer._early_stop`:
`np.argmin(self.valid_history) + self.early_stop_after < len(self.valid_history)`. -/
def earlyStop (validHistory : List ℚ) (earlyStopAfter : Nat) : Bool :=
  decide (argmin validHistory + earlyStopAfter < validHistory.length)

/-- `self.early_stop_after = 4` from `Trainer.__init__`. -/
def trainerEarlyStopAfter : Nat := 4

/-- `self.batch_size = 32` from `Trainer.__init__`. -/
def trainerBatchSize : Nat := 32

/-- The training-state fields `Trainer.__init__` sets after its assertion
passes (model construction, session and summary writers are external I/O and
carry no further logic). -/
structure TrainerInit where
  line_height : Nat
  train_history : List ℚ
  valid_history : List ℚ
  early_stop_after : Nat
  batch_size : Nat
  deriving Repr, DecidableEq

/-- The state `Trainer.__init__` builds when the assertion passes. -/
def mkTrainerInit (lineHeight : Nat) : TrainerInit :=
  { line_height := lineHeight
    train_history := []
    valid_history := []
    early_stop_after := trainerEarlyStopAfter
    batch_size := trainerBatchSize }

/-- `Trainer.__init__(train_data, valid_data, output)` up to its state
initialisation: `assert train_data.line_height == valid_data.line_height` runs
first; on failure nothing is initialised. -/
def trainerInit (trainLineHeight validLineHeight : Nat) : Except String TrainerInit :=
  if trainLineHeight = validLineHeight then
    Except.ok (mkTrainerInit trainLineHeight)
  else
    Except.error "AssertionError"

/-- `Trainer._batch_count(data_length)`: `data_length // self.batch_size`,
i.e. floor division. -/
def batchCount (dataLength batchSize : Nat) : Nat :=
  dataLength / batchSize

/-- `batch_start = batch_id * self.batch_size` in `_train_epoch`/`validate`. -/
def batchStart (batchId batchSize : Nat) : Nat :=
  batchId * batchSize

/-- `batch_end = batch_start + self.batch_size` in `_train_epoch`/`validate`. -/
def batchEnd (batchId batchSize : Nat) : Nat :=
  batchStart batchId batchSize + batchSize

/-- The epoch-loss accumulation and normalisation shared by
`Trainer._train_epoch` and `Trainer.validate`: over `batch_count` batches
accumulate `loss * batch_size`, then divide by
`example_count = batch_count * batch_size`.  The per-batch loss returned by
`session.run` is abstracted as `lossOf`.  When `example_count` is `0` the
division raises `ZeroDivisionError`, modelled as an error. -/
def epochLoss (dataLength batchSize : Nat) (lossOf : Nat → ℚ) : Except String ℚ :=
  let bc := batchCount dataLength batchSize
  let total := (List.range bc).foldl (fun acc i => acc + lossOf i * (batchSize : ℚ)) 0
  let exampleCount := bc * batchSize
  if exampleCount = 0 then
    Except.error "ZeroDivisionError: division by zero"
  else
    Except.ok (total / (exampleCount : ℚ))

/-- `Trainer.validate` restricted to its history effect: compute the epoch
loss over the validation data and append it to `valid_history`; an exception
before the `append` leaves the history untouched. -/
def validatePass (dataLength : Nat) (lossOf : Nat → ℚ) (history : List ℚ) :
    Except String (List ℚ) :=
  match epochLoss dataLength trainerBatchSize lossOf with
  | Except.error e => Except.error e
  | Except.ok l => Except.ok (history ++ [l])

/-- `s` ends with the character `/` (checked on the underlying character
list, as `os.path.join` checks the last character of the accumulated path). -/
def endsWithSlash (s : String) : Bool :=
  s.data.getLast? == some '/'

/-- `os.path.join(a, b)` for a relative, nonempty second component (the only
shape this code joins): insert a `/` separator unless `a` is empty or already
ends with one. -/
def pathJoin (a b : String) : String :=
  if a = "" then b
  else if endsWithSlash a then a ++ b
  else a ++ "/" ++ b

/-- `Trainer._checkpoint(output, epoch)`:
`os.path.join(output, "model", "{0}.ckpt".format(epoch))`. -/
def checkpointPath (output : String) (epoch : Nat) : String :=
  pathJoin (pathJoin output "model") (toString epoch ++ ".ckpt")

/-- The `Trainer.train` loop state: the two histories plus the sequence of
checkpoint paths passed to `save` (the Trainer only ever appends to it). -/
structure TrainerState where
  output : String
  train_history : List ℚ
  valid_history : List ℚ
  checkpoints : List String
  deriving Repr, DecidableEq

/-- One iteration of the `while True` loop in `Trainer.train`:
`_train_epoch` appends the training epoch loss, `validate` appends the
validation epoch loss, then `save(Trainer._checkpoint(output, epoch))` runs
with `epoch = len(train_history) - 1`.  The two epoch losses computed by the
session are abstracted as `tl` and `vl`. -/
def trainStep (tl vl : ℚ) (s : TrainerState) : TrainerState :=
  let s1 := { s with train_history := s.train_history ++ [tl] }
  let s2 := { s1 with valid_history := s1.valid_history ++ [vl] }
  let epoch := s2.train_history.length - 1
  { s2 with checkpoints := s2.checkpoints ++ [checkpointPath s2.output epoch] }

/-- The state after `k` completed iterations of `Trainer.train`'s loop,
starting from the freshly initialised trainer (`train_history = []`,
`valid_history = []`, no checkpoints saved), with the per-epoch losses
abstracted as the sequences `tl` and `vl`. -/
def trainRun (tl vl : Nat → ℚ) (output : String) : Nat → TrainerState
  | 0 => { output := output, train_history := [], valid_history := [], checkpoints := [] }
  | k + 1 => trainStep (tl k) (vl k) (trainRun tl vl output k)

/-- A Python value appearing as an argument of `_prepare_data`: an array or
an integer. -/
inductive PyVal where
  | arr : Image → PyVal
  | int : Int → PyVal
  deriving Repr, DecidableEq

/-- Python's binding of a call to `_prepare_data`, whose declared parameters
are exactly `(line, label)`: `pos` are the positional arguments and `kwLabel`
an optional `label=` keyword argument.  Supplying `label` both positionally
and by keyword raises `TypeError` before the function body runs. -/
def bindPrepareDataArgs (pos : List PyVal) (kwLabel : Option PyVal) :
    Except String (PyVal × PyVal) :=
  match pos, kwLabel with
  | [l], some lb => Except.ok (l, lb)
  | [l, lb], none => Except.ok (l, lb)
  | [_, _], some _ =>
    Except.error "TypeError: _prepare_data() got multiple values for argument label"
  | _, _ => Except.error "TypeError: bad arguments to _prepare_data()"

/-- `Runner.script(line)`: the source calls
`_prepare_data(line, line.shape[0], label=1)` — two positional arguments plus
a `label=` keyword — then would feed the prepared batch of one line to
`session.run(self.model.outputs, ...)`, abstracted as `modelOutputs` applied
to the prepared line and its recorded width. -/
def runnerScript (modelOutputs : Image → Nat → Int) (line : Image) : Except String Int :=
  match bindPrepareDataArgs [PyVal.arr line, PyVal.int (line.length : Int)] (some (PyVal.int 1)) with
  | Except.error e => Except.error e
  | Except.ok (PyVal.arr l, PyVal.int lb) =>
    let p := prepareData l lb
    Except.ok (modelOutputs p.1 p.2.1)
  | Except.ok _ => Except.error "TypeError: unsupported operand types"

deriving instance DecidableEq for Except

/-! ### Helper lemmas about the embedded operations -/

theorem le_foldl_max (xs : List Nat) (a : Nat) : a ≤ xs.foldl max a := by
  induction xs generalizing a with
  | nil => exact Nat.le_refl a
  | cons x xs ih => exact Nat.le_trans (Nat.le_max_left a x) (ih (max a x))

theorem mem_le_foldl_max (xs : List Nat) (a x : Nat) (hx : x ∈ xs) : x ≤ xs.foldl max a := by
  induction xs generalizing a with
  | nil => cases hx
  | cons y ys ih =>
    rcases List.mem_cons.mp hx with rfl | hmem
    · exact Nat.le_trans (Nat.le_max_right a x) (le_foldl_max ys (max a x))
    · exact ih (max a y) hmem

theorem pymax_le {l : List Nat} {m : Nat} (h : pymax l = some m) : ∀ x ∈ l, x ≤ m := by
  cases l with
  | nil => cases h
  | cons y ys =>
    intro x hx
    have hm : ys.foldl max y = m := by simpa [pymax] using h
    rcases List.mem_cons.mp hx with rfl | hmem
    · exact hm ▸ le_foldl_max ys x
    · exact hm ▸ mem_le_foldl_max ys y x hmem

theorem pymax_of_ne_nil {l : List Nat} (h : l ≠ []) : ∃ m, pymax l = some m := by
  cases l with
  | nil => exact absurd rfl h
  | cons y ys => exact ⟨ys.foldl max y, rfl⟩

theorem fetchCount_length (data : List Sample) :
    ∀ {k a : Nat} {samples : List Sample},
      fetchCount data a k = some samples → samples.length = k := by
  intro k
  induction k with
  | zero =>
    intro a samples h
    simp only [fetchCount] at h
    cases h
    rfl
  | succ k ih =>
    intro a samples h
    simp only [fetchCount] at h
    cases hget : data.get? a with
    | none => rw [hget] at h; cases h
    | some s =>
      rw [hget] at h
      cases hrest : fetchCount data (a + 1) k with
      | none => rw [hrest] at h; cases h
      | some rest =>
        rw [hrest] at h
        cases h
        simp [ih hrest]

theorem fetchCount_get? (data : List Sample) :
    ∀ {k a : Nat} {samples : List Sample},
      fetchCount data a k = some samples →
      ∀ i, i < k → samples.get? i = data.get? (a + i) := by
  intro k
  induction k with
  | zero => intro a samples _ i hi; cases hi
  | succ k ih =>
    intro a samples h i hi
    simp only [fetchCount] at h
    cases hget : data.get? a with
    | none => rw [hget] at h; cases h
    | some s =>
      rw [hget] at h
      cases hrest : fetchCount data (a + 1) k with
      | none => rw [hrest] at h; cases h
      | some rest =>
        rw [hrest] at h
        cases h
        cases i with
        | zero => simpa using hget.symm
        | succ i =>
          have := ih hrest i (Nat.lt_of_succ_lt_succ hi)
          simpa [Nat.add_assoc, Nat.add_comm 1 i] using this

theorem fetchCount_of_le_length (data : List Sample) :
    ∀ {k a : Nat}, a + k ≤ data.length → ∃ samples, fetchCount data a k = some samples := by
  intro k
  induction k with
  | zero => intro a _; exact ⟨[], rfl⟩
  | succ k ih =>
    intro a h
    have ha : a < data.length := by omega
    have hs : data.get? a = some (data.get ⟨a, ha⟩) := List.get?_eq_get ha
    obtain ⟨rest, hrest⟩ := ih (a := a + 1) (by omega)
    exact ⟨data.get ⟨a, ha⟩ :: rest, by simp only [fetchCount, hs, hrest]⟩

theorem getPaddedBatch_eq {data : List Sample} {a b : Nat} {pv : ℚ}
    {imgs : List Image} {widths : List Nat} {labels : List Int}
    (h : getPaddedBatch data a b pv = some (imgs, widths, labels)) :
    ∃ samples maxWidth,
      fetchCount data a (b - a) = some samples ∧
      pymax (samples.map fun s => s.1.length) = some maxWidth ∧
      imgs = samples.map (fun s => padLine s.1 maxWidth pv) ∧
      widths = samples.map (fun s => s.1.length) ∧
      labels = samples.map (fun s => s.2) := by
  unfold getPaddedBatch at h
  cases hf : fetchCount data a (b - a) with
  | none => rw [hf] at h; cases h
  | some samples =>
    rw [hf] at h
    simp only [prepareData] at h
    cases hm : pymax (samples.map fun s => s.1.length) with
    | none => rw [hm] at h; cases h
    | some maxWidth =>
      rw [hm] at h
      cases h
      exact ⟨samples, maxWidth, rfl, hm, rfl, rfl, rfl⟩

theorem padLine_length {line : Image} {width : Nat} (pv : ℚ) (h : line.length ≤ width) :
    (padLine line width pv).length = width := by
  simp only [padLine, List.length_append, List.length_replicate]
  omega

theorem padLine_take (line : Image) (width : Nat) (pv : ℚ) :
    (padLine line width pv).take line.length = line :=
  List.take_left line _

theorem padLine_drop (line : Image) (width : Nat) (pv : ℚ) :
    (padLine line width pv).drop line.length =
      List.replicate (width - line.length) (List.replicate (imgHeight line) pv) :=
  List.drop_left line _

theorem padLine_heights {line : Image} (width : Nat) (pv : ℚ)
    (hrect : ∀ c ∈ line, c.length = imgHeight line) :
    ∀ c ∈ padLine line width pv, c.length = imgHeight line := by
  intro c hc
  rcases List.mem_append.mp hc with hmem | hmem
  · exact hrect c hmem
  · rw [List.eq_of_mem_replicate hmem]
    exact List.length_replicate _ _

theorem listMin_cons_cons (x y : ℚ) (xs : List ℚ) :
    listMin (x :: y :: xs) = min x (listMin (y :: xs)) := rfl

theorem argmin_cons_cons (x y : ℚ) (xs : List ℚ) :
    argmin (x :: y :: xs) = if x ≤ listMin (y :: xs) then 0 else argmin (y :: xs) + 1 := rfl

theorem listMin_le {l : List ℚ} (hne : l ≠ []) : ∀ x ∈ l, listMin l ≤ x := by
  induction l with
  | nil => exact absurd rfl hne
  | cons x xs ih =>
    cases xs with
    | nil =>
      intro z hz
      rcases List.mem_singleton.mp hz with rfl
      exact le_refl (listMin [z])
    | cons y ys =>
      intro z hz
      rw [listMin_cons_cons]
      rcases List.mem_cons.mp hz with rfl | hmem
      · exact min_le_left _ _
      · exact le_trans (min_le_right _ _) (ih (List.cons_ne_nil y ys) z hmem)

theorem argmin_lt_length {l : List ℚ} (hne : l ≠ []) : argmin l < l.length := by
  induction l with
  | nil => exact absurd rfl hne
  | cons x xs ih =>
    cases xs with
    | nil => simp [argmin]
    | cons y ys =>
      rw [argmin_cons_cons]
      by_cases hx : x ≤ listMin (y :: ys)
      · simp [hx]
      · have := ih (List.cons_ne_nil y ys)
        simp only [List.length_cons] at this ⊢
        simp only [hx, if_false]
        omega

theorem get?_argmin {l : List ℚ} (hne : l ≠ []) : l.get? (argmin l) = some (listMin l) := by
  induction l with
  | nil => exact absurd rfl hne
  | cons x xs ih =>
    cases xs with
    | nil => rfl
    | cons y ys =>
      rw [argmin_cons_cons, listMin_cons_cons]
      by_cases hx : x ≤ listMin (y :: ys)
      · simp [hx, min_eq_left hx]
      · have hlt : listMin (y :: ys) ≤ x := le_of_not_le hx
        simp only [hx, if_false, min_eq_right hlt, List.get?_cons_succ]
        exact ih (List.cons_ne_nil y ys)

theorem argmin_first_min {l : List ℚ} :
    ∀ j x, j < argmin l → l.get? j = some x → listMin l < x := by
  induction l with
  | nil => intro j x hj; simp [argmin] at hj
  | cons z zs ih =>
    cases zs with
    | nil => intro j x hj; simp [argmin] at hj
    | cons y ys =>
      intro j x hj hget
      rw [argmin_cons_cons] at hj
      by_cases hz : z ≤ listMin (y :: ys)
      · simp [hz] at hj
      · have hlt : listMin (y :: ys) < z := lt_of_not_le hz
        rw [listMin_cons_cons, min_eq_right (le_of_lt hlt)]
        simp only [hz, if_false] at hj
        cases j with
        | zero =>
          rcases Option.some_injective _ (by simpa using hget) with rfl
          exact hlt
        | succ j =>
          exact ih j x (Nat.lt_of_succ_lt_succ hj) (by simpa using hget)

theorem string_eq_of_data {s t : String} (h : s.data = t.data) : s = t := by
  cases s
  cases t
  subst h
  rfl

theorem foldl_loss_eq_sum (m : Nat) (f : Nat → ℚ) (c : ℚ) :
    (List.range m).foldl (fun acc i => acc + f i * c) 0 = (∑ i ∈ Finset.range m, f i) * c := by
  induction m with
  | zero => simp
  | succ m ih =>
    rw [List.range_succ, List.foldl_append, Finset.sum_range_succ, ih]
    simp only [List.foldl_cons, List.foldl_nil]
    ring

theorem trainRun_output (tl vl : Nat → ℚ) (out : String) (k : Nat) :
    (trainRun tl vl out k).output = out := by
  induction k with
  | zero => rfl
  | succ k ih => simpa [trainRun, trainStep] using ih

theorem trainRun_train_length (tl vl : Nat → ℚ) (out : String) (k : Nat) :
    (trainRun tl vl out k).train_history.length = k := by
  induction k with
  | zero => rfl
  | succ k ih => simp [trainRun, trainStep, ih]

theorem trainRun_valid_length (tl vl : Nat → ℚ) (out : String) (k : Nat) :
    (trainRun tl vl out k).valid_history.length = k := by
  induction k with
  | zero => rfl
  | succ k ih => simp [trainRun, trainStep, ih]

theorem not_endsWithSlash_append_model (out : String) :
    endsWithSlash (out ++ "/" ++ "model") = false := by
  simp only [endsWithSlash, String.data_append]
  rw [List.getLast?_append_of_ne_nil _ (by decide)]
  decide

theorem append_model_ne_empty (out : String) : out ++ "/" ++ "model" ≠ "" := by
  intro h
  have hd := congrArg String.data h
  simp [String.data_append] at hd

theorem checkpointPath_eq (out : String) (e : Nat)
    (h1 : endsWithSlash out = false) (h2 : out ≠ "") :
    checkpointPath out e = out ++ "/model/" ++ toString e ++ ".ckpt" := by
  unfold checkpointPath pathJoin
  rw [if_neg h2, h1]
  simp only [Bool.false_eq_true, if_false]
  rw [if_neg (append_model_ne_empty out), not_endsWithSlash_append_model out]
  simp only [Bool.false_eq_true, if_false]
  apply string_eq_of_data
  simp [String.data_append, List.append_assoc]

/-- The `_train_epoch` counterpart of `validatePass`: identical batch-count,
loss-accumulation and normalisation logic, appending to `train_history`. -/
def trainEpochPass (dataLength : Nat) (lossOf : Nat → ℚ) (history : List ℚ) :
    Except String (List ℚ) :=
  match epochLoss dataLength trainerBatchSize lossOf with
  | Except.error e => Except.error e
  | Except.ok l => Except.ok (history ++ [l])

theorem getPaddedBatch_some_of (data : List Sample) {a b : Nat}
    (hab : a < b) (hle : b ≤ data.length) :
    ∃ imgs widths labels,
      getPaddedBatch data a b 0 = some (imgs, widths, labels) ∧
      widths.length = b - a ∧ imgs.length = b - a := by
  obtain ⟨samples, hf⟩ := fetchCount_of_le_length data (k := b - a) (a := a) (by omega)
  have hlen := fetchCount_length data hf
  have hne : samples ≠ [] := by
    intro hnil
    rw [hnil] at hlen
    simp at hlen
    omega
  obtain ⟨m, hm⟩ := pymax_of_ne_nil (l := samples.map fun s => s.1.length)
    (by simpa using hne)
  refine ⟨samples.map (fun s => padLine s.1 m 0), samples.map (fun s => s.1.length),
    samples.map (fun s => s.2), ?_, by simp [hlen], by simp [hlen]⟩
  simp only [getPaddedBatch, hf, prepareData, hm]

/-! ### Claim theorems -/

/-- Claim C1, counterexample: with validation history `[5, 4, 6, 7, 8]` and
`early_stop_after = 4`, `Trainer._early_stop` is `False` — the index of the
minimum is `1` and `1 + 4 = 5` is not strictly less than the history length
`5` — so `train()` does not terminate at that point, contrary to the claim. -/
theorem early_stop_at_five_counterexample :
    earlyStop [5, 4, 6, 7, 8] 4 = false := by decide

/-- Claim C1, amended: with validation history `[5, 4, 6, 7, 8]` and
`early_stop_after = 4`, the early-stop condition evaluated after appending `8`
does not hold (the index of the minimum is `1` and `1 + 4 = 5 = len` fails the
strict inequality), so `train()` continues; the condition first holds one
non-improving epoch later, e.g. with history `[5, 4, 6, 7, 8, 8]`. -/
theorem early_stop_at_five_amended :
    argmin [5, 4, 6, 7, 8] = 1 ∧
    earlyStop [5, 4, 6, 7, 8] 4 = false ∧
    earlyStop [5, 4, 6, 7, 8, 8] 4 = true := by decide

/-- Claim C2, code bug: `Runner.script(line)` evaluates
`_prepare_data(line, line.shape[0], label=1)`, supplying the parameter
`label` both positionally and by keyword, so every call raises `TypeError`
before the forward pass; no predicted class id is ever returned. -/
theorem runner_script_type_error (modelOutputs : Image → Nat → Int) (line : Image) :
    runnerScript modelOutputs line =
      Except.error "TypeError: _prepare_data() got multiple values for argument label" := rfl

/-- Claim C4: for every nonempty validation history, with `m = argmin` the
index of the first occurrence of the minimum value (characterised here:
`m` is in range, the value at `m` is a lower bound of the whole history, and
every earlier value is strictly larger), `Trainer._early_stop` holds iff
`m + early_stop_after < len(validation_history)`; `Trainer.__init__` sets
`early_stop_after` to its default `4`. -/
theorem early_stop_iff_min_index (vh : List ℚ) (esa : Nat) (hne : vh ≠ []) :
    argmin vh < vh.length ∧
    vh.get? (argmin vh) = some (listMin vh) ∧
    (∀ x ∈ vh, listMin vh ≤ x) ∧
    (∀ j x, j < argmin vh → vh.get? j = some x → listMin vh < x) ∧
    (earlyStop vh esa = true ↔ argmin vh + esa < vh.length) ∧
    (∀ lh : Nat, (mkTrainerInit lh).early_stop_after = 4) := by
  refine ⟨argmin_lt_length hne, get?_argmin hne, listMin_le hne, argmin_first_min, ?_,
    fun _ => rfl⟩
  simp [earlyStop]

/-- Witness for C4 at the concrete history `[5, 4, 6, 7, 8]` with
`early_stop_after = 4`. -/
theorem early_stop_iff_min_index_witness :
    argmin [5, 4, 6, 7, 8] < ([5, 4, 6, 7, 8] : List ℚ).length ∧
    ([5, 4, 6, 7, 8] : List ℚ).get? (argmin [5, 4, 6, 7, 8]) = some (listMin [5, 4, 6, 7, 8]) ∧
    (∀ x ∈ ([5, 4, 6, 7, 8] : List ℚ), listMin [5, 4, 6, 7, 8] ≤ x) ∧
    (∀ j x, j < argmin [5, 4, 6, 7, 8] → ([5, 4, 6, 7, 8] : List ℚ).get? j = some x →
      listMin [5, 4, 6, 7, 8] < x) ∧
    (earlyStop [5, 4, 6, 7, 8] 4 = true ↔
      argmin [5, 4, 6, 7, 8] + 4 < ([5, 4, 6, 7, 8] : List ℚ).length) ∧
    (∀ lh : Nat, (mkTrainerInit lh).early_stop_after = 4) :=
  early_stop_iff_min_index [5, 4, 6, 7, 8] 4 (by decide)

/-- Claim C6: every batch `_get_padded_batch` constructs from the index range
`[from_elem, to_elem)` satisfies
`len(widths) == len(labels) == padded_images.shape[0] ==` size of the range. -/
theorem batch_lengths_eq (data : List Sample) (a b : Nat) (pv : ℚ)
    (imgs : List Image) (widths : List Nat) (labels : List Int)
    (hbatch : getPaddedBatch data a b pv = some (imgs, widths, labels)) :
    widths.length = b - a ∧ labels.length = b - a ∧ imgs.length = b - a := by
  obtain ⟨samples, mw, hf, hm, himgs, hwid, hlab⟩ := getPaddedBatch_eq hbatch
  have hlen := fetchCount_length data hf
  subst himgs hwid hlab
  simp [hlen]

/-- Witness for C6 on a concrete two-sample dataset and the range `[0, 2)`. -/
theorem batch_lengths_eq_witness :
    ([2, 1] : List Nat).length = 2 - 0 ∧ ([0, 1] : List Int).length = 2 - 0 ∧
    ([[[1, 2], [3, 4]], [[5, 6], [0, 0]]] : List Image).length = 2 - 0 :=
  batch_lengths_eq [([[1, 2], [3, 4]], 0), ([[5, 6]], 1)] 0 2 0
    [[[1, 2], [3, 4]], [[5, 6], [0, 0]]] [2, 1] [0, 1] (by decide)

/-- Claim C8: `Trainer.__init__` runs
`assert train_data.line_height == valid_data.line_height` before any
training-state initialisation; it fails with `AssertionError` (initialising
nothing) exactly when the two line heights differ, and passes the check when
they are equal. -/
theorem trainer_init_assertion (t v : Nat) :
    (t ≠ v → trainerInit t v = Except.error "AssertionError") ∧
    (t = v → trainerInit t v = Except.ok (mkTrainerInit t)) := by
  constructor
  · intro h
    simp [trainerInit, h]
  · intro h
    simp [trainerInit, h]

/-- Witness for C8: mismatched heights `3 ≠ 4` fail the assertion, equal
heights `5 = 5` construct the initial state. -/
theorem trainer_init_assertion_witness :
    trainerInit 3 4 = Except.error "AssertionError" ∧
    trainerInit 5 5 = Except.ok (mkTrainerInit 5) :=
  ⟨(trainer_init_assertion 3 4).1 (by decide), (trainer_init_assertion 5 5).2 rfl⟩

/-- Claim C3: for every batch `_get_padded_batch` builds (with the padding
constant `0` its call sites pass), every padded image's width equals
`max(widths)`; for each sample of the range the recorded width is the
original image's width, the first `widths[i]` width-positions of the padded
image equal the original image exactly, every width-position at or beyond
`widths[i]` holds only the padding constant `0`, and the height and
batch-count dimensions are unchanged. -/
theorem padded_batch_correct (data : List Sample) (a b : Nat)
    (imgs : List Image) (widths : List Nat) (labels : List Int) (maxWidth : Nat)
    (hbatch : getPaddedBatch data a b 0 = some (imgs, widths, labels))
    (hmax : pymax widths = some maxWidth) :
    imgs.length = b - a ∧
    (∀ p ∈ imgs, p.length = maxWidth) ∧
    (∀ i img lab, i < b - a → data.get? (a + i) = some (img, lab) →
      widths.get? i = some img.length ∧
      ∃ p, imgs.get? i = some p ∧
        p.take img.length = img ∧
        (∀ c ∈ p.drop img.length, ∀ q ∈ c, q = 0) ∧
        ((∀ c ∈ img, c.length = imgHeight img) → ∀ c ∈ p, c.length = imgHeight img)) := by
  obtain ⟨samples, mw, hf, hm, himgs, hwid, hlab⟩ := getPaddedBatch_eq hbatch
  subst himgs hwid hlab
  have hmw : mw = maxWidth := Option.some_injective _ (hm.symm.trans hmax)
  subst hmw
  have hlen := fetchCount_length data hf
  refine ⟨by simp [hlen], ?_, ?_⟩
  · intro p hp
    obtain ⟨s, hs, rfl⟩ := List.mem_map.mp hp
    exact padLine_length 0 (pymax_le hm _ (List.mem_map_of_mem _ hs))
  · intro i img lab hi hdata
    have hget : samples.get? i = some (img, lab) := by
      rw [fetchCount_get? data hf i (by omega)]
      exact hdata
    constructor
    · rw [List.get?_map, hget]
      rfl
    · refine ⟨padLine img mw 0, ?_, padLine_take img mw 0, ?_, padLine_heights mw 0⟩
      · rw [List.get?_map, hget]
        rfl
      · intro c hc q hq
        rw [padLine_drop img mw 0] at hc
        rw [List.eq_of_mem_replicate hc] at hq
        exact List.eq_of_mem_replicate hq

/-- Witness for C3 on a concrete two-sample dataset — widths `2` and `1`,
`max_width = 2` — checked at the second (padded) sample. -/
theorem padded_batch_correct_witness :
    (([[[1, 2], [3, 4]], [[5, 6], [0, 0]]] : List Image).length = 2 - 0 ∧
      (∀ p ∈ ([[[1, 2], [3, 4]], [[5, 6], [0, 0]]] : List Image), p.length = 2) ∧
      (∀ i img lab, i < 2 - 0 →
        ([([[1, 2], [3, 4]], 0), ([[5, 6]], 1)] : List Sample).get? (0 + i) = some (img, lab) →
        ([2, 1] : List Nat).get? i = some img.length ∧
        ∃ p, ([[[1, 2], [3, 4]], [[5, 6], [0, 0]]] : List Image).get? i = some p ∧
          p.take img.length = img ∧
          (∀ c ∈ p.drop img.length, ∀ q ∈ c, q = 0) ∧
          ((∀ c ∈ img, c.length = imgHeight img) → ∀ c ∈ p, c.length = imgHeight img))) ∧
    ([[5, 6]] : Image).length = 1 ∧ imgHeight [[5, 6]] = 2 :=
  ⟨padded_batch_correct [([[1, 2], [3, 4]], 0), ([[5, 6]], 1)] 0 2
    [[[1, 2], [3, 4]], [[5, 6], [0, 0]]] [2, 1] [0, 1] 2 (by decide) (by decide),
   by decide, by decide⟩

/-- Claim C7: after every completed iteration of `Trainer.train`'s loop the
training and validation histories have equal length (the loop's assertion),
each iteration extends each history by exactly the one epoch loss it
appends, and earlier entries are never reset or truncated. -/
theorem train_histories_grow (tl vl : Nat → ℚ) (out : String) (k : Nat) :
    (trainRun tl vl out k).train_history.length = (trainRun tl vl out k).valid_history.length ∧
    (trainRun tl vl out k).train_history.length = k ∧
    (trainRun tl vl out (k + 1)).train_history = (trainRun tl vl out k).train_history ++ [tl k] ∧
    (trainRun tl vl out (k + 1)).valid_history = (trainRun tl vl out k).valid_history ++ [vl k] := by
  refine ⟨?_, trainRun_train_length tl vl out k, rfl, rfl⟩
  rw [trainRun_train_length, trainRun_valid_length]

/-- Claim C10: for every dataset smaller than the batch size `32`, both
`_train_epoch` and `validate` compute a batch count of `0`, iterate over no
batches, and the normalisation `epoch_loss / example_count` divides `0` by
`0`, raising `ZeroDivisionError` before any loss value is appended to the
corresponding history. -/
theorem small_dataset_zero_division (n : Nat) (lossOf : Nat → ℚ) (history : List ℚ)
    (h : n < 32) :
    batchCount n trainerBatchSize = 0 ∧
    List.range (batchCount n trainerBatchSize) = [] ∧
    epochLoss n trainerBatchSize lossOf = Except.error "ZeroDivisionError: division by zero" ∧
    trainEpochPass n lossOf history = Except.error "ZeroDivisionError: division by zero" ∧
    validatePass n lossOf history = Except.error "ZeroDivisionError: division by zero" := by
  have hbc : batchCount n trainerBatchSize = 0 := Nat.div_eq_of_lt h
  have hloss : epochLoss n trainerBatchSize lossOf =
      Except.error "ZeroDivisionError: division by zero" := by
    simp [epochLoss, hbc]
  refine ⟨hbc, by rw [hbc]; rfl, hloss, ?_, ?_⟩
  · simp [trainEpochPass, hloss]
  · simp [validatePass, hloss]

/-- Witness for C10 at the concrete dataset size `5 < 32`. -/
theorem small_dataset_zero_division_witness :
    batchCount 5 trainerBatchSize = 0 ∧
    List.range (batchCount 5 trainerBatchSize) = [] ∧
    epochLoss 5 trainerBatchSize (fun _ => 0) =
      Except.error "ZeroDivisionError: division by zero" ∧
    trainEpochPass 5 (fun _ => 0) [] = Except.error "ZeroDivisionError: division by zero" ∧
    validatePass 5 (fun _ => 0) [] = Except.error "ZeroDivisionError: division by zero" :=
  small_dataset_zero_division 5 (fun _ => 0) [] (by decide)

/-- Claim C5: an epoch over a dataset of size `n` with batch size `b`
processes exactly `n / b` (floor) full batches — batch `i` covers the index
range `[i*b, i*b + b)`, which lies inside the dataset, and yields a batch of
exactly `b` samples, so a trailing partial batch is dropped — and the epoch
loss is the accumulated `loss * b` divided by `example_count = (n / b) * b`,
not by `n`. -/
theorem epoch_batching_correct (n bsz : Nat) (lossOf : Nat → ℚ)
    (hb : 0 < bsz) (hn : bsz ≤ n) :
    batchCount n bsz = n / bsz ∧
    0 < batchCount n bsz ∧
    (∀ i, i < batchCount n bsz →
      batchStart i bsz = i * bsz ∧ batchEnd i bsz = i * bsz + bsz ∧ batchEnd i bsz ≤ n) ∧
    (∀ data : List Sample, data.length = n → ∀ i, i < batchCount n bsz →
      ∃ imgs widths labels,
        getPaddedBatch data (batchStart i bsz) (batchEnd i bsz) 0 = some (imgs, widths, labels) ∧
        widths.length = bsz ∧ imgs.length = bsz) ∧
    epochLoss n bsz lossOf =
      Except.ok ((∑ i ∈ Finset.range (batchCount n bsz), lossOf i) * (bsz : ℚ) /
        ((batchCount n bsz * bsz : Nat) : ℚ)) := by
  have hend : ∀ i, i < n / bsz → i * bsz + bsz ≤ n := by
    intro i hi
    have h1 : (i + 1) * bsz ≤ (n / bsz) * bsz := Nat.mul_le_mul_right bsz hi
    have h2 : (n / bsz) * bsz ≤ n := Nat.div_mul_le_self n bsz
    have h3 : (i + 1) * bsz = i * bsz + bsz := by ring
    omega
  refine ⟨rfl, Nat.div_pos hn hb, fun i hi => ⟨rfl, rfl, hend i hi⟩, ?_, ?_⟩
  · intro data hdata i hi
    obtain ⟨imgs, widths, labels, hbatch, hw, himg⟩ :=
      getPaddedBatch_some_of data (a := batchStart i bsz) (b := batchEnd i bsz)
        (by simp [batchEnd]; omega) (by rw [hdata]; exact hend i hi)
    exact ⟨imgs, widths, labels, hbatch, by rw [hw]; simp [batchEnd, batchStart],
      by rw [himg]; simp [batchEnd, batchStart]⟩
  · have h1 : 0 < n / bsz := Nat.div_pos hn hb
    have hec : batchCount n bsz * bsz ≠ 0 := by
      simp only [batchCount]
      exact Nat.mul_ne_zero (by omega) (by omega)
    simp only [epochLoss, foldl_loss_eq_sum, hec, if_false, ite_false]

/-- Witness for C5 at the spec's instance `n = 100`, `b = 32`: exactly `3`
batches, `96` samples used, and the divisor is `96`, not `100`. -/
theorem epoch_batching_correct_witness :
    (batchCount 100 32 = 100 / 32 ∧
      0 < batchCount 100 32 ∧
      (∀ i, i < batchCount 100 32 →
        batchStart i 32 = i * 32 ∧ batchEnd i 32 = i * 32 + 32 ∧ batchEnd i 32 ≤ 100) ∧
      (∀ data : List Sample, data.length = 100 → ∀ i, i < batchCount 100 32 →
        ∃ imgs widths labels,
          getPaddedBatch data (batchStart i 32) (batchEnd i 32) 0 = some (imgs, widths, labels) ∧
          widths.length = 32 ∧ imgs.length = 32) ∧
      epochLoss 100 32 (fun _ => 1) =
        Except.ok ((∑ i ∈ Finset.range (batchCount 100 32), (fun _ => (1 : ℚ)) i) * (32 : ℚ) /
          ((batchCount 100 32 * 32 : Nat) : ℚ))) ∧
    batchCount 100 32 = 3 ∧ batchCount 100 32 * 32 = 96 ∧ batchCount 100 32 * 32 ≠ 100 :=
  ⟨epoch_batching_correct 100 32 (fun _ => 1) (by decide) (by decide),
   by decide, by decide, by decide⟩

/-- Claim C9: under `Trainer.train`, the checkpoint saved after completed
epoch `e` goes to `<output>/model/<e>.ckpt` (for an output root that is
nonempty and not `/`-terminated, matching `os.path.join`), where `e` equals
`len(train_history) - 1` at saving time; after `k` iterations exactly the `k`
checkpoints for epochs `0 … k-1` have been written, each iteration appends
exactly one, and the Trainer never removes any. -/
theorem train_checkpoints_per_epoch (tl vl : Nat → ℚ) (out : String) (k : Nat)
    (h1 : endsWithSlash out = false) (h2 : out ≠ "") :
    (trainRun tl vl out k).checkpoints =
      (List.range k).map (fun e => out ++ "/model/" ++ toString e ++ ".ckpt") ∧
    (trainRun tl vl out k).checkpoints.length = k ∧
    (trainRun tl vl out (k + 1)).checkpoints =
      (trainRun tl vl out k).checkpoints ++ [out ++ "/model/" ++ toString k ++ ".ckpt"] ∧
    (trainRun tl vl out (k + 1)).train_history.length = k + 1 := by
  have hmain : ∀ m, (trainRun tl vl out m).checkpoints =
      (List.range m).map (fun e => out ++ "/model/" ++ toString e ++ ".ckpt") := by
    intro m
    induction m with
    | zero => rfl
    | succ m ih =>
      show (trainStep (tl m) (vl m) (trainRun tl vl out m)).checkpoints = _
      simp only [trainStep, List.length_append, List.length_cons, List.length_nil]
      rw [List.range_succ, List.map_append, ih, trainRun_output, trainRun_train_length]
      simp [checkpointPath_eq out m h1 h2]
  refine ⟨hmain k, ?_, ?_, trainRun_train_length tl vl out (k + 1)⟩
  · rw [hmain k, List.length_map, List.length_range]
  · rw [hmain (k + 1), hmain k, List.range_succ, List.map_append]
    rfl

/-- Witness for C9 with output root `"out"` after `2` iterations: the
persisted checkpoints are exactly `out/model/0.ckpt` and `out/model/1.ckpt`. -/
theorem train_checkpoints_per_epoch_witness :
    (trainRun (fun _ => 0) (fun _ => 0) "out" 2).checkpoints =
      (List.range 2).map (fun e => "out" ++ "/model/" ++ toString e ++ ".ckpt") ∧
    (trainRun (fun _ => 0) (fun _ => 0) "out" 2).checkpoints.length = 2 ∧
    (trainRun (fun _ => 0) (fun _ => 0) "out" 3).checkpoints =
      (trainRun (fun _ => 0) (fun _ => 0) "out" 2).checkpoints ++
        ["out" ++ "/model/" ++ toString 2 ++ ".ckpt"] ∧
    (trainRun (fun _ => 0) (fun _ => 0) "out" 3).train_history.length = 3 :=
  train_checkpoints_per_epoch (fun _ => 0) (fun _ => 0) "out" 2 (by decide) (by decide)

end ScriptDetection
